import Mathlib

/-!
# Verification of the OEIS benchmark data-preparation pipeline

A shallow embedding of the pipeline in `src/utils.py` and `src/process.py`:
a batch job that loads a tabular dataset of integer sequences, truncates each
sequence, filters by minimum length, splits each sequence into its first terms
and next term, drops duplicate first-terms lists, derives an `is_easy` flag
from keywords, and writes the result.

Datasets are modelled as a schema of column-presence flags plus an ordered
list of rows.  A row carries a value for every possible column; a value is
meaningful only when its column's flag is set (Hugging Face datasets track the
schema separately from the row data, and the pipeline guards every stage on
column presence).  Removing a column clears both the flag and the stored
values.  The Python `seq[-1]` on an empty list raises `IndexError`, so the
split step is modelled with `Option`: `none` is an uncaught exception.
-/

/-- One record of the dataset: the four source columns plus the three derived
columns.  Fields of absent columns hold these default values. -/
structure Row where
  sequence_id : Int := 0
  sequence_name : String := ""
  sequence : List Int := []
  keywords : List String := []
  sequence_first_terms : List Int := []
  sequence_next_term : Int := 0
  is_easy : Nat := 0
  deriving Repr, DecidableEq

/-- Which columns are present in a dataset (`dataset.column_names` /
`dataset.features` in the source). -/
structure Schema where
  has_sequence_id : Bool := false
  has_sequence_name : Bool := false
  has_sequence : Bool := false
  has_keywords : Bool := false
  has_first_terms : Bool := false
  has_next_term : Bool := false
  has_is_easy : Bool := false
  deriving Repr, DecidableEq

/-- A Hugging Face `Dataset`: an ordered collection of rows sharing a schema. -/
structure Dataset where
  schema : Schema
  rows : List Row
  deriving Repr, DecidableEq

/-! ## utils.py: batched column-level operations

`truncate_sequence`, `filter_by_min_length` and `extract_next_term` consume
the batch's `sequence` column (a list of sequences) and return new columns,
exactly as the Python functions do on `examples["sequence"]`. -/

/-- `seq[:max_el] if len(seq) > max_el else seq` for one sequence.
The configuration guarantees `max_el` is a positive integer, so `Nat`. -/
def truncateOne (max_el : Nat) (seq : List Int) : List Int :=
  if seq.length > max_el then seq.take max_el else seq

/-- `truncate_sequence` (utils.py line 35-38): truncate every sequence of the
batch to at most `max_el` elements. -/
def truncate_sequence (max_el : Nat) (seqs : List (List Int)) : List (List Int) :=
  seqs.map (fun seq => truncateOne max_el seq)

/-- `filter_by_min_length` (utils.py line 56): one boolean per sequence,
`len(seq) >= n_el`. -/
def filter_by_min_length (n_el : Nat) (seqs : List (List Int)) : List Bool :=
  seqs.map (fun seq => decide (seq.length ≥ n_el))

/-- `Dataset.filter(..., batched=True)`: keep the entries of the batch whose
mask bit is true. -/
def applyMask : List Bool → List α → List α
  | b :: bs, x :: xs => if b then x :: applyMask bs xs else applyMask bs xs
  | _, _ => []

/-- `extract_next_term` (utils.py lines 82-95): for each sequence take
`seq[-1]` as the next term and `seq[:-1]` as the first terms.  `seq[-1]` on an
empty sequence raises `IndexError`, modelled by `none`. -/
def extract_next_term : List (List Int) → Option (List (List Int) × List Int)
  | [] => some ([], [])
  | seq :: rest =>
    match seq.getLast?, extract_next_term rest with
    | some next_term, some (first_terms, next_terms) =>
      some (seq.dropLast :: first_terms, next_term :: next_terms)
    | _, _ => none

/-- The stateful `filter_unique_sequence` closure of
`drop_duplicate_sequence_beginnings`: iterate the rows in order, keep a row
iff its `sequence_first_terms` (as a tuple) is not in the `seen_sequences`
set, adding the kept key to the set. -/
def dedupFilter (seen : List (List Int)) : List Row → List Row
  | [] => []
  | r :: rs =>
    if r.sequence_first_terms ∈ seen then dedupFilter seen rs
    else r :: dedupFilter (r.sequence_first_terms :: seen) rs

/-- `drop_duplicate_sequence_beginnings` (utils.py lines 98-134): if the
`sequence_first_terms` column is absent, return the dataset unchanged;
otherwise filter the rows with a fresh empty seen-set. -/
def drop_duplicate_sequence_beginnings (ds : Dataset) : Dataset :=
  if ds.schema.has_first_terms then
    { ds with rows := dedupFilter [] ds.rows }
  else ds

/-- The `_add_easy_flag` row function of `add_is_easy_column`:
`1 if "easy" in keywords else 0`. -/
def easyFlag (keywords : List String) : Nat :=
  if "easy" ∈ keywords then 1 else 0

/-- `add_is_easy_column` (utils.py lines 137-165): if the `keywords` column is
absent, return the dataset unchanged; otherwise map `_add_easy_flag` over the
rows, which attaches the `is_easy` column. -/
def add_is_easy_column (ds : Dataset) : Dataset :=
  if ds.schema.has_keywords then
    { schema := { ds.schema with has_is_easy := true },
      rows := ds.rows.map (fun r => { r with is_easy := easyFlag r.keywords }) }
  else ds

/-! ## process.py: the pipeline stages

Each numbered stage of `process_oeis_dataset` (lines 88-152), with the column
guards exactly as written there.  `Dataset.map(fn, batched=True)` replaces the
columns returned by `fn` and keeps all other columns, so the stages reassemble
the transformed `sequence` column into the rows. -/

/-- Reattach a transformed `sequence` column to the rows, as
`Dataset.map(truncate_sequence, batched=True)` does. -/
def setSequenceColumn : List Row → List (List Int) → List Row
  | r :: rs, s :: ss => { r with sequence := s } :: setSequenceColumn rs ss
  | _, _ => []

/-- Stage 2 (process.py lines 88-104): select the intersection of
`["sequence_id", "sequence_name", "sequence", "keywords"]` with the existing
columns; any derived column is not selected, hence dropped. -/
def selectRequired (ds : Dataset) : Dataset :=
  { schema :=
      { has_sequence_id := ds.schema.has_sequence_id,
        has_sequence_name := ds.schema.has_sequence_name,
        has_sequence := ds.schema.has_sequence,
        has_keywords := ds.schema.has_keywords,
        has_first_terms := false,
        has_next_term := false,
        has_is_easy := false },
    rows := ds.rows.map (fun r =>
      { sequence_id := if ds.schema.has_sequence_id then r.sequence_id else 0,
        sequence_name := if ds.schema.has_sequence_name then r.sequence_name else "",
        sequence := if ds.schema.has_sequence then r.sequence else [],
        keywords := if ds.schema.has_keywords then r.keywords else [] }) }

/-- Stage 3 (process.py lines 106-112): truncate the sequences if the
`sequence` column is present, otherwise skip with a warning. -/
def truncateStage (max_el : Nat) (ds : Dataset) : Dataset :=
  if ds.schema.has_sequence then
    { ds with
      rows := setSequenceColumn ds.rows
        (truncate_sequence max_el (ds.rows.map (fun r => r.sequence))) }
  else ds

/-- Stage 4 (process.py lines 114-120): filter by minimum length if the
`sequence` column is present, otherwise skip with a warning. -/
def filterStage (n_el : Nat) (ds : Dataset) : Dataset :=
  if ds.schema.has_sequence then
    { ds with
      rows := applyMask (filter_by_min_length n_el (ds.rows.map (fun r => r.sequence))) ds.rows }
  else ds

/-- Attach the two columns produced by `extract_next_term` to the rows. -/
def setSplitColumns : List Row → List (List Int) → List Int → List Row
  | r :: rs, ft :: fts, nt :: nts =>
    { r with sequence_first_terms := ft, sequence_next_term := nt } ::
      setSplitColumns rs fts nts
  | _, _, _ => []

/-- `Dataset.remove_columns(["sequence"])`: the column disappears from the
schema and its values are gone. -/
def removeSequenceColumn (ds : Dataset) : Dataset :=
  { schema := { ds.schema with has_sequence := false },
    rows := ds.rows.map (fun r => { r with sequence := [] }) }

/-- Stage 5 (process.py lines 122-131): if the `sequence` column is present,
map `extract_next_term` over the batch (adding the `sequence_first_terms` and
`sequence_next_term` columns) and then remove the `sequence` column; `none`
when the underlying `seq[-1]` raises.  If the column is absent, skip. -/
def splitStage (ds : Dataset) : Option Dataset :=
  if ds.schema.has_sequence then
    match extract_next_term (ds.rows.map (fun r => r.sequence)) with
    | none => none
    | some (first_terms, next_terms) =>
      some (removeSequenceColumn
        { schema := { ds.schema with has_first_terms := true, has_next_term := true },
          rows := setSplitColumns ds.rows first_terms next_terms })
  else some ds

/-- Stage 6 (process.py lines 133-141): drop duplicate first-terms rows if the
`sequence_first_terms` column is present, otherwise skip. -/
def dedupStage (ds : Dataset) : Dataset :=
  if ds.schema.has_first_terms then drop_duplicate_sequence_beginnings ds
  else ds

/-- `Dataset.remove_columns(["keywords"])`. -/
def removeKeywordsColumn (ds : Dataset) : Dataset :=
  { schema := { ds.schema with has_keywords := false },
    rows := ds.rows.map (fun r => { r with keywords := [] }) }

/-- Stage 7 (process.py lines 143-152): if the `keywords` column is present,
add the `is_easy` column and then remove `keywords`; otherwise skip. -/
def isEasyStage (ds : Dataset) : Dataset :=
  if ds.schema.has_keywords then removeKeywordsColumn (add_is_easy_column ds)
  else ds

/-- Stages 2-7 of `process_oeis_dataset`: everything between a successful load
and the save.  `none` means an uncaught `IndexError` escaped the split step. -/
def pipelineCore (max_seq_len min_seq_len : Nat) (ds : Dataset) : Option Dataset :=
  match splitStage (filterStage min_seq_len (truncateStage max_seq_len (selectRequired ds))) with
  | none => none
  | some split => some (isEasyStage (dedupStage split))

/-! ## Orchestration (process.py lines 34-174)

The two interactions with the outside world - `load_dataset` and
`to_parquet` - are modelled as explicit outcomes handed to the orchestrator.
A `load_dataset` call either raises (caught by the `except` on line 84),
returns a `DatasetDict` of named splits (indexing `["train"]` raises
`KeyError` inside the same `try` when the split is missing), returns a plain
`Dataset`, or returns something of an unexpected type (line 76-82). -/

inductive LoadResult where
  | failure
  | dict (splits : List (String × Dataset))
  | single (ds : Dataset)
  | other
  deriving Repr, DecidableEq

/-- `full_ds["train"]`: `some` the train split, `none` when indexing raises. -/
def lookupTrain (splits : List (String × Dataset)) : Option Dataset :=
  (splits.find? (fun p => p.1 == "train")).map (fun p => p.2)

/-- How a run of `process_oeis_dataset` ends, seen from its caller and from
the file system. -/
inductive RunOutcome where
  | abortedNoWrite
  | raised
  | saveFailed (ds : Dataset)
  | saved (ds : Dataset)
  deriving Repr, DecidableEq

/-- The function returned to its caller without an exception propagating. -/
def returnsNormally : RunOutcome → Bool
  | .raised => false
  | _ => true

/-- A new output file exists after the run. -/
def producedOutput : RunOutcome → Bool
  | .saved _ => true
  | _ => false

/-- `process_oeis_dataset` (process.py lines 34-174): load (returning early on
any load failure, missing train split, or unexpected type), run the pipeline
stages, and save; `saveOk` is whether `mkdir` plus `to_parquet` succeed, any
save exception being caught on line 172. -/
def process_oeis_dataset (max_seq_len min_seq_len : Nat) (load : LoadResult)
    (saveOk : Bool) : RunOutcome :=
  match load with
  | .failure => .abortedNoWrite
  | .other => .abortedNoWrite
  | .dict splits =>
    match lookupTrain splits with
    | none => .abortedNoWrite
    | some ds =>
      match pipelineCore max_seq_len min_seq_len ds with
      | none => .raised
      | some out => if saveOk then .saved out else .saveFailed out
  | .single ds =>
    match pipelineCore max_seq_len min_seq_len ds with
    | none => .raised
    | some out => if saveOk then .saved out else .saveFailed out

/-! ## Verification artifacts -/

/-- The row transformation performed by a successful split stage: the first
terms and next term are attached and the `sequence` column is cleared. -/
def splitRowNF (r : Row) : Row :=
  { r with
    sequence := [],
    sequence_first_terms := r.sequence.dropLast,
    sequence_next_term := r.sequence.getLastD 0 }

/-- The three-row input of the spec's worked example: two source columns,
`max_seq_len = 8`, `min_seq_len = 8`. -/
def exampleInput : Dataset :=
  { schema := { has_sequence := true, has_keywords := true },
    rows :=
      [ { sequence := [1, 2, 3, 4, 5, 6, 7, 8, 9], keywords := ["easy"] },
        { sequence := [1, 2, 3, 4, 5, 6, 7, 8, 20], keywords := [] },
        { sequence := [1, 2], keywords := ["easy"] } ] }

/-- The single row the worked example is expected to produce. -/
def exampleOutput : Dataset :=
  { schema :=
      { has_sequence_id := false,
        has_sequence_name := false,
        has_sequence := false,
        has_keywords := false,
        has_first_terms := true,
        has_next_term := true,
        has_is_easy := true },
    rows :=
      [ { sequence_first_terms := [1, 2, 3, 4, 5, 6, 7],
          sequence_next_term := 8,
          is_easy := 1 } ] }

/-- Concrete dataset used to witness the split claim. -/
def wds1 : Dataset :=
  { schema := { has_sequence := true },
    rows := [{ sequence := [1, 2, 3] }, { sequence := [4] }] }

/-- Concrete dataset used to witness the dedup claim: the first two rows
share their first terms. -/
def wds2 : Dataset :=
  { schema := { has_first_terms := true },
    rows :=
      [ { sequence_first_terms := [1, 2], sequence_next_term := 3 },
        { sequence_first_terms := [1, 2], sequence_next_term := 4 },
        { sequence_first_terms := [5] } ] }

/-- Concrete dataset used to witness the length-filter claim: one row long
enough, one too short. -/
def wds4 : Dataset :=
  { schema := { has_sequence := true },
    rows := [{ sequence := [5, 6] }, { sequence := [7] }] }

/-- Concrete dataset used to witness the `is_easy` claim: one easy row, one
row whose keyword differs only by case. -/
def wds5 : Dataset :=
  { schema := { has_keywords := true },
    rows := [{ keywords := ["fini", "easy"] }, { keywords := ["Easy"] }] }

/-- Concrete dataset used to witness the schema-finality claim. -/
def wds6 : Dataset :=
  { schema := { has_sequence := true, has_keywords := true },
    rows := [{ sequence := [1, 2], keywords := [] }] }

/-- The dataset the pipeline produces from `wds6` with
`max_seq_len = 5, min_seq_len = 1`. -/
def wds6out : Dataset :=
  { schema := { has_first_terms := true, has_next_term := true, has_is_easy := true },
    rows := [{ sequence_first_terms := [1], sequence_next_term := 2 }] }

/-- Concrete dataset with no columns at all, used to witness the
missing-column claim. -/
def wds7 : Dataset :=
  { schema := {},
    rows := [{ sequence := [9], keywords := ["easy"] }] }

/-- Concrete dataset used to witness the error-handling claim. -/
def wds9 : Dataset :=
  { schema := { has_sequence := true },
    rows := [{ sequence := [1, 2] }] }

/-- The dataset the pipeline produces from `wds9` with
`max_seq_len = 3, min_seq_len = 1`. -/
def wds9out : Dataset :=
  { schema := { has_first_terms := true, has_next_term := true },
    rows := [{ sequence_first_terms := [1], sequence_next_term := 2 }] }

/-- Concrete dataset used to witness the output-length-bounds claim. -/
def wds10 : Dataset :=
  { schema := { has_sequence := true },
    rows := [{ sequence := [1, 2, 3] }] }

/-! ## Helper lemmas about the batch mechanics -/

/-- Reattaching a column computed by mapping a function over the extracted
column is the same as mapping over the rows. -/
theorem setSequenceColumn_map (f : List Int → List Int) (rows : List Row) :
    setSequenceColumn rows ((rows.map (fun r => r.sequence)).map f) =
      rows.map (fun r => { r with sequence := f r.sequence }) := by
  induction rows with
  | nil => rfl
  | cons r rs ih => simpa [setSequenceColumn] using ih

/-- Filtering with a mask computed pointwise is `List.filter`. -/
theorem applyMask_map (p : α → Bool) (xs : List α) :
    applyMask (xs.map p) xs = xs.filter p := by
  induction xs with
  | nil => rfl
  | cons x xs ih => by_cases h : p x <;> simp [applyMask, List.filter_cons, h, ih]

/-- Attaching the two split columns computed rowwise is a map over the rows. -/
theorem setSplitColumns_map (f : Row → List Int) (g : Row → Int) (rows : List Row) :
    setSplitColumns rows (rows.map f) (rows.map g) =
      rows.map (fun r =>
        { r with sequence_first_terms := f r, sequence_next_term := g r }) := by
  induction rows with
  | nil => rfl
  | cons r rs ih => simpa [setSplitColumns] using ih

/-- A non-empty list has `some` last element, namely `getLastD _ 0`. -/
theorem getLast?_eq_some_getLastD {s : List Int} (h : s ≠ []) :
    s.getLast? = some (s.getLastD 0) := by
  rw [List.getLast?_eq_getLast_of_ne_nil h, List.getLastD_eq_getLast?,
    List.getLast?_eq_getLast_of_ne_nil h, Option.getD_some]

/-- On a batch of non-empty sequences, `extract_next_term` succeeds and
returns the two columns computed pointwise. -/
theorem extract_next_term_eq {seqs : List (List Int)} (h : ∀ s ∈ seqs, s ≠ []) :
    extract_next_term seqs =
      some (seqs.map List.dropLast, seqs.map (fun s => s.getLastD 0)) := by
  induction seqs with
  | nil => rfl
  | cons s rest ih =>
    have hs : s ≠ [] := h s (List.mem_cons_self s rest)
    have hrest := ih (fun t ht => h t (List.mem_cons_of_mem s ht))
    unfold extract_next_term
    rw [hrest, getLast?_eq_some_getLastD hs]
    simp

/-- One truncated sequence has length at most `max_el`. -/
theorem truncateOne_length_le (max_el : Nat) (seq : List Int) :
    (truncateOne max_el seq).length ≤ max_el := by
  unfold truncateOne
  by_cases h : seq.length > max_el
  · simp [h]
  · simp only [h, if_false]
    omega

/-- Normal form of the truncation stage when the `sequence` column exists. -/
theorem truncateStage_eq {ds : Dataset} (max_el : Nat)
    (h : ds.schema.has_sequence = true) :
    truncateStage max_el ds =
      { ds with rows := ds.rows.map (fun r =>
          { r with sequence := truncateOne max_el r.sequence }) } := by
  simp only [truncateStage, h, if_true, truncate_sequence]
  rw [setSequenceColumn_map]

/-- Normal form of the length-filter stage when the `sequence` column
exists. -/
theorem filterStage_eq {ds : Dataset} (n_el : Nat)
    (h : ds.schema.has_sequence = true) :
    filterStage n_el ds =
      { ds with rows := ds.rows.filter (fun r => decide (r.sequence.length ≥ n_el)) } := by
  simp only [filterStage, h, if_true, filter_by_min_length, List.map_map]
  rw [show ((fun seq => decide (List.length seq ≥ n_el)) ∘ fun r => r.sequence) =
      (fun r : Row => decide (r.sequence.length ≥ n_el)) from rfl, applyMask_map]

/-- Normal form of the split stage when the `sequence` column exists and
every sequence of the batch is non-empty. -/
theorem splitStage_eq {ds : Dataset} (hseq : ds.schema.has_sequence = true)
    (hne : ∀ r ∈ ds.rows, r.sequence ≠ []) :
    splitStage ds =
      some { schema :=
              { ds.schema with
                has_sequence := false, has_first_terms := true, has_next_term := true },
             rows := ds.rows.map splitRowNF } := by
  have hcols : ∀ s ∈ ds.rows.map (fun r => r.sequence), s ≠ [] := by
    intro s hs
    obtain ⟨r, hr, rfl⟩ := List.mem_map.mp hs
    exact hne r hr
  simp only [splitStage, hseq, if_true, extract_next_term_eq hcols, List.map_map]
  rw [show (List.dropLast ∘ fun r : Row => r.sequence) =
      (fun r : Row => r.sequence.dropLast) from rfl,
    show ((fun s : List Int => s.getLastD 0) ∘ fun r : Row => r.sequence) =
      (fun r : Row => r.sequence.getLastD 0) from rfl,
    setSplitColumns_map]
  simp [removeSequenceColumn, List.map_map, splitRowNF]

/-! ## Helper lemmas about the deduplication filter -/

/-- The deduplication filter only removes rows: its result is a sublist of the
input, so relative order is preserved. -/
theorem dedupFilter_sublist (seen : List (List Int)) (rows : List Row) :
    List.Sublist (dedupFilter seen rows) rows := by
  induction rows generalizing seen with
  | nil => simp [dedupFilter]
  | cons r rs ih =>
    unfold dedupFilter
    by_cases h : r.sequence_first_terms ∈ seen
    · simp only [h, if_true]
      exact (ih seen).cons r
    · simp only [h, if_false]
      exact (ih _).cons₂ r

/-- The keys of the kept rows are pairwise distinct and disjoint from the
seen-set the filter started with. -/
theorem dedupFilter_keys_nodup (seen : List (List Int)) (rows : List Row) :
    ((dedupFilter seen rows).map (fun r => r.sequence_first_terms)).Nodup ∧
      ∀ k ∈ (dedupFilter seen rows).map (fun r => r.sequence_first_terms), k ∉ seen := by
  induction rows generalizing seen with
  | nil => simp [dedupFilter]
  | cons r rs ih =>
    unfold dedupFilter
    by_cases h : r.sequence_first_terms ∈ seen
    · simpa [h] using ih seen
    · simp only [h, if_false, List.map_cons, List.nodup_cons]
      obtain ⟨hnd, hdisj⟩ := ih (r.sequence_first_terms :: seen)
      refine ⟨⟨fun hmem => ?_, hnd⟩, fun k hk => ?_⟩
      · exact hdisj _ hmem (List.mem_cons_self _ _)
      · rcases List.mem_cons.mp hk with hk | hk
        · rw [hk]; exact h
        · exact fun hkseen => hdisj k hk (List.mem_cons_of_mem _ hkseen)

/-- Every input row's key either was already seen or appears among the keys
of the kept rows. -/
theorem dedupFilter_covers (seen : List (List Int)) (rows : List Row) :
    ∀ r ∈ rows, r.sequence_first_terms ∈ seen ∨
      r.sequence_first_terms ∈
        (dedupFilter seen rows).map (fun r => r.sequence_first_terms) := by
  induction rows generalizing seen with
  | nil => simp
  | cons a rs ih =>
    intro r hr
    unfold dedupFilter
    by_cases h : a.sequence_first_terms ∈ seen
    · simp only [h, if_true]
      rcases List.mem_cons.mp hr with rfl | hr
      · exact Or.inl h
      · exact ih seen r hr
    · simp only [h, if_false, List.map_cons]
      rcases List.mem_cons.mp hr with rfl | hr
      · exact Or.inr (List.mem_cons_self _ _)
      · rcases ih (a.sequence_first_terms :: seen) r hr with hin | hin
        · rcases List.mem_cons.mp hin with heq | hin
          · exact Or.inr (heq ▸ List.mem_cons_self _ _)
          · exact Or.inl hin
        · exact Or.inr (List.mem_cons_of_mem _ hin)

/-- For a key not yet seen, the first kept row with that key is the first
input row with that key: first occurrences win. -/
theorem dedupFilter_find? (rows : List Row) (k : List Int) :
    ∀ seen : List (List Int), k ∉ seen →
      (dedupFilter seen rows).find? (fun r => r.sequence_first_terms == k) =
        rows.find? (fun r => r.sequence_first_terms == k) := by
  induction rows with
  | nil => intro seen _; simp [dedupFilter]
  | cons a rs ih =>
    intro seen hk
    unfold dedupFilter
    by_cases h : a.sequence_first_terms ∈ seen
    · simp only [h, if_true]
      have hne : ¬((fun r : Row => r.sequence_first_terms == k) a = true) := by
        simp only [beq_iff_eq]
        intro heq
        exact hk (heq ▸ h)
      rw [List.find?_cons_of_neg (p := fun r : Row => r.sequence_first_terms == k) rs hne]
      exact ih seen hk
    · simp only [h, if_false]
      by_cases heq : a.sequence_first_terms = k
      · rw [List.find?_cons_of_pos (p := fun r : Row => r.sequence_first_terms == k)
            (dedupFilter (a.sequence_first_terms :: seen) rs) (by simp [heq]),
          List.find?_cons_of_pos (p := fun r : Row => r.sequence_first_terms == k)
            rs (by simp [heq])]
      · have hp : ¬((fun r : Row => r.sequence_first_terms == k) a = true) := by simp [heq]
        rw [List.find?_cons_of_neg (p := fun r : Row => r.sequence_first_terms == k)
            (dedupFilter (a.sequence_first_terms :: seen) rs) hp,
          List.find?_cons_of_neg (p := fun r : Row => r.sequence_first_terms == k) rs hp]
        exact ih _ (by
          intro hmem
          rcases List.mem_cons.mp hmem with hkk | hkk
          · exact heq hkk.symm
          · exact hk hkk)

/-- A row the filter dropped has an earlier kept row with the same key. -/
theorem dedupFilter_earlier (r : Row) (l2 : List Row) (l1 : List Row) :
    ∀ seen : List (List Int),
      r ∉ dedupFilter seen (l1 ++ r :: l2) →
      r.sequence_first_terms ∉ seen →
      ∃ y ∈ l1, y ∈ dedupFilter seen (l1 ++ r :: l2) ∧
        y.sequence_first_terms = r.sequence_first_terms := by
  induction l1 with
  | nil =>
    intro seen hdrop hseen
    exfalso
    rw [List.nil_append] at hdrop
    unfold dedupFilter at hdrop
    simp only [hseen, if_false] at hdrop
    exact hdrop (List.mem_cons_self _ _)
  | cons a l1 ih =>
    intro seen hdrop hseen
    rw [List.cons_append] at hdrop ⊢
    unfold dedupFilter at hdrop ⊢
    by_cases h : a.sequence_first_terms ∈ seen
    · simp only [h, if_true] at hdrop ⊢
      obtain ⟨y, hy1, hy2, hy3⟩ := ih seen hdrop hseen
      exact ⟨y, List.mem_cons_of_mem a hy1, hy2, hy3⟩
    · simp only [h, if_false] at hdrop ⊢
      by_cases heq : a.sequence_first_terms = r.sequence_first_terms
      · exact ⟨a, List.mem_cons_self _ _, List.mem_cons_self _ _, heq⟩
      · have hseen' : r.sequence_first_terms ∉ a.sequence_first_terms :: seen := by
          intro hmem
          rcases List.mem_cons.mp hmem with hkk | hkk
          · exact heq hkk.symm
          · exact hseen hkk
        have hdrop' : r ∉ dedupFilter (a.sequence_first_terms :: seen) (l1 ++ r :: l2) :=
          fun hmem => hdrop (List.mem_cons_of_mem a hmem)
        obtain ⟨y, hy1, hy2, hy3⟩ := ih _ hdrop' hseen'
        exact ⟨y, List.mem_cons_of_mem a hy1, List.mem_cons_of_mem _ hy2, hy3⟩

/-! ## Helper lemmas about stage schemas -/

/-- Deduplication never changes the schema. -/
theorem drop_duplicate_schema (ds : Dataset) :
    (drop_duplicate_sequence_beginnings ds).schema = ds.schema := by
  unfold drop_duplicate_sequence_beginnings
  by_cases h : ds.schema.has_first_terms = true <;> simp [h]

/-- The dedup stage never changes the schema. -/
theorem dedupStage_schema (ds : Dataset) : (dedupStage ds).schema = ds.schema := by
  unfold dedupStage
  by_cases h : ds.schema.has_first_terms = true <;> simp [h, drop_duplicate_schema]

/-- The dedup stage only removes rows. -/
theorem dedupStage_rows_sublist (ds : Dataset) :
    List.Sublist (dedupStage ds).rows ds.rows := by
  unfold dedupStage drop_duplicate_sequence_beginnings
  by_cases h : ds.schema.has_first_terms = true
  · simp only [h, if_true]
    exact dedupFilter_sublist [] ds.rows
  · simp [h]

/-- After the flag stage the `keywords` column is gone and the presence of
the `sequence` column is unchanged. -/
theorem isEasyStage_schema (ds : Dataset) :
    (isEasyStage ds).schema.has_keywords = false ∧
      (isEasyStage ds).schema.has_sequence = ds.schema.has_sequence := by
  cases h : ds.schema.has_keywords <;>
    simp [isEasyStage, add_is_easy_column, removeKeywordsColumn, h]

/-- The flag stage keeps every row's first terms (it only sets `is_easy` and
clears `keywords`). -/
theorem isEasyStage_first_terms (ds : Dataset) :
    ∀ r' ∈ (isEasyStage ds).rows, ∃ r ∈ ds.rows,
      r'.sequence_first_terms = r.sequence_first_terms := by
  intro r' hr'
  cases h : ds.schema.has_keywords
  · simp only [isEasyStage, h, Bool.false_eq_true, if_false] at hr'
    exact ⟨r', hr', rfl⟩
  · simp only [isEasyStage, h, if_true, removeKeywordsColumn, add_is_easy_column,
      List.map_map, List.mem_map] at hr'
    obtain ⟨r, hr, rfl⟩ := hr'
    exact ⟨r, hr, rfl⟩

/-- Whenever the split stage succeeds, the `sequence` column is gone from its
result. -/
theorem splitStage_some_has_sequence {ds out : Dataset} (h : splitStage ds = some out) :
    out.schema.has_sequence = false := by
  unfold splitStage at h
  cases hs : ds.schema.has_sequence
  · rw [hs] at h
    simp only [Bool.false_eq_true, if_false, Option.some.injEq] at h
    rw [← h, hs]
  · rw [hs] at h
    simp only [if_true] at h
    cases hext : extract_next_term (ds.rows.map fun r => r.sequence) with
    | none => rw [hext] at h; cases h
    | some p =>
      rw [hext] at h
      obtain ⟨first_terms, next_terms⟩ := p
      simp only [Option.some.injEq] at h
      rw [← h]
      rfl

/-! ## Claim theorems -/

/-- C3: truncation returns the first `max_seq_len` elements when the sequence
is longer than `max_seq_len` and returns the sequence unchanged otherwise;
consequently it is idempotent, and truncating an already-truncated batch is a
no-op. -/
theorem C3_truncation_idempotent (max_el : Nat) (seqs : List (List Int)) :
    truncate_sequence max_el (truncate_sequence max_el seqs) =
        truncate_sequence max_el seqs ∧
    ∀ seq ∈ seqs,
      (seq.length > max_el → truncateOne max_el seq = seq.take max_el) ∧
      (seq.length ≤ max_el → truncateOne max_el seq = seq) ∧
      truncateOne max_el (truncateOne max_el seq) = truncateOne max_el seq := by
  have hshort : ∀ s : List Int, s.length ≤ max_el → truncateOne max_el s = s := by
    intro s hs
    unfold truncateOne
    simp [Nat.not_lt.mpr hs]
  have hidem : ∀ s : List Int,
      truncateOne max_el (truncateOne max_el s) = truncateOne max_el s :=
    fun s => hshort _ (truncateOne_length_le max_el s)
  refine ⟨?_, fun seq _ => ⟨fun hlong => ?_, hshort seq, hidem seq⟩⟩
  · unfold truncate_sequence
    rw [List.map_map]
    exact List.map_congr_left (fun s _ => hidem s)
  · unfold truncateOne
    simp [hlong]

/-- Witness for C3 at a concrete batch: one sequence longer than the maximum
and one shorter. -/
theorem C3_truncation_idempotent_witness :
    truncate_sequence 2 (truncate_sequence 2 [[1, 2, 3], [4]]) =
        truncate_sequence 2 [[1, 2, 3], [4]] ∧
    ∀ seq ∈ [[1, 2, 3], ([4] : List Int)],
      (seq.length > 2 → truncateOne 2 seq = seq.take 2) ∧
      (seq.length ≤ 2 → truncateOne 2 seq = seq) ∧
      truncateOne 2 (truncateOne 2 seq) = truncateOne 2 seq :=
  C3_truncation_idempotent 2 [[1, 2, 3], [4]]

/-- C4: with the `sequence` column present, the minimum-length filter keeps
exactly the rows whose sequence has at least `n_el` elements, preserves the
relative order of the retained rows, and leaves the schema alone. -/
theorem C4_min_length_filter (n_el : Nat) (ds : Dataset)
    (h : ds.schema.has_sequence = true) :
    (filterStage n_el ds).rows =
        ds.rows.filter (fun r => decide (r.sequence.length ≥ n_el)) ∧
    List.Sublist (filterStage n_el ds).rows ds.rows ∧
    (∀ r ∈ (filterStage n_el ds).rows, r.sequence.length ≥ n_el) ∧
    (filterStage n_el ds).schema = ds.schema := by
  have heq := filterStage_eq n_el h
  refine ⟨by rw [heq], ?_, fun r hr => ?_, by rw [heq]⟩
  · rw [heq]
    exact List.filter_sublist ds.rows
  · rw [heq] at hr
    have hp := List.of_mem_filter hr
    simpa using hp

/-- C5: with the `keywords` column present, `add_is_easy_column` gives every
row an `is_easy` of 1 exactly when the literal string "easy" is a member of
that row's keywords (case-sensitive, exact equality), and 0 otherwise. -/
theorem C5_is_easy_flag (ds : Dataset) (h : ds.schema.has_keywords = true) :
    List.Forall₂ (fun r r' =>
        (r'.is_easy = 1 ↔ "easy" ∈ r.keywords) ∧
        (r'.is_easy = 0 ↔ "easy" ∉ r.keywords))
      ds.rows (add_is_easy_column ds).rows := by
  simp only [add_is_easy_column, h, if_true]
  rw [List.forall₂_map_right_iff, List.forall₂_same]
  intro r _
  by_cases hmem : "easy" ∈ r.keywords <;> simp [easyFlag, hmem]


/-- Witness for C4 on `wds4`: one row long enough, one too short. -/
theorem C4_min_length_filter_witness :
    wds4.schema.has_sequence = true ∧
    ((filterStage 2 wds4).rows =
        wds4.rows.filter (fun r => decide (r.sequence.length ≥ 2)) ∧
      List.Sublist (filterStage 2 wds4).rows wds4.rows ∧
      (∀ r ∈ (filterStage 2 wds4).rows, r.sequence.length ≥ 2) ∧
      (filterStage 2 wds4).schema = wds4.schema) :=
  ⟨rfl, C4_min_length_filter 2 wds4 rfl⟩

/-- Witness for C5 on `wds5`: the flag is derived case-sensitively. -/
theorem C5_is_easy_flag_witness :
    wds5.schema.has_keywords = true ∧
    List.Forall₂ (fun r r' =>
        (r'.is_easy = 1 ↔ "easy" ∈ r.keywords) ∧
        (r'.is_easy = 0 ↔ "easy" ∉ r.keywords))
      wds5.rows (add_is_easy_column wds5).rows :=
  ⟨rfl, C5_is_easy_flag wds5 rfl⟩

/-- C1: when the `sequence` column is present and every row reaching the
split step has a non-empty (post-truncation) sequence, the split succeeds,
sets `sequence_next_term` to the last element of `sequence` and
`sequence_first_terms` to `sequence` without its last element - so appending
the next term to the first terms reconstructs the sequence exactly - and
afterwards the `sequence` column is dropped. -/
theorem C1_split_correct (ds : Dataset) (hseq : ds.schema.has_sequence = true)
    (hne : ∀ r ∈ ds.rows, r.sequence ≠ []) :
    ∃ out, splitStage ds = some out ∧
      out.schema.has_sequence = false ∧
      out.schema.has_first_terms = true ∧
      out.schema.has_next_term = true ∧
      List.Forall₂ (fun r r' =>
          r'.sequence_first_terms = r.sequence.dropLast ∧
          r.sequence.getLast? = some r'.sequence_next_term ∧
          r'.sequence_first_terms ++ [r'.sequence_next_term] = r.sequence)
        ds.rows out.rows := by
  refine ⟨_, splitStage_eq hseq hne, rfl, rfl, rfl, ?_⟩
  show List.Forall₂ _ ds.rows (ds.rows.map splitRowNF)
  rw [List.forall₂_map_right_iff, List.forall₂_same]
  intro r hr
  have hlast := getLast?_eq_some_getLastD (hne r hr)
  exact ⟨rfl, hlast, List.dropLast_append_getLast? _ (Option.mem_def.mpr hlast)⟩

/-- Witness for C1 on `wds1`: two non-empty sequences. -/
theorem C1_split_correct_witness :
    wds1.schema.has_sequence = true ∧ (∀ r ∈ wds1.rows, r.sequence ≠ []) ∧
    ∃ out, splitStage wds1 = some out ∧
      out.schema.has_sequence = false ∧
      out.schema.has_first_terms = true ∧
      out.schema.has_next_term = true ∧
      List.Forall₂ (fun r r' =>
          r'.sequence_first_terms = r.sequence.dropLast ∧
          r.sequence.getLast? = some r'.sequence_next_term ∧
          r'.sequence_first_terms ++ [r'.sequence_next_term] = r.sequence)
        wds1.rows out.rows :=
  ⟨rfl, by decide, C1_split_correct wds1 rfl (by decide)⟩

/-- C2: with the `sequence_first_terms` column present, the deduplicator
returns rows whose first-terms keys are pairwise distinct (element-wise,
order-sensitive equality), keeps the retained rows in their original relative
order, retains for each key exactly the first input row carrying it, and
every dropped row has an earlier retained row with an identical key. -/
theorem C2_dedup_unique (ds : Dataset) (h : ds.schema.has_first_terms = true) :
    ((drop_duplicate_sequence_beginnings ds).rows.map
        (fun r => r.sequence_first_terms)).Nodup ∧
    List.Sublist (drop_duplicate_sequence_beginnings ds).rows ds.rows ∧
    (∀ k : List Int,
      (drop_duplicate_sequence_beginnings ds).rows.find?
          (fun r => r.sequence_first_terms == k) =
        ds.rows.find? (fun r => r.sequence_first_terms == k)) ∧
    ∀ l1 r l2, ds.rows = l1 ++ r :: l2 →
      r ∉ (drop_duplicate_sequence_beginnings ds).rows →
      ∃ y ∈ l1, y ∈ (drop_duplicate_sequence_beginnings ds).rows ∧
        y.sequence_first_terms = r.sequence_first_terms := by
  have hrows : (drop_duplicate_sequence_beginnings ds).rows = dedupFilter [] ds.rows := by
    simp [drop_duplicate_sequence_beginnings, h]
  rw [hrows]
  refine ⟨(dedupFilter_keys_nodup [] ds.rows).1, dedupFilter_sublist [] ds.rows,
    fun k => dedupFilter_find? ds.rows k [] (by simp), ?_⟩
  intro l1 r l2 hsplit hdrop
  rw [hsplit] at hdrop ⊢
  exact dedupFilter_earlier r l2 l1 [] hdrop (by simp)

/-- Witness for C2 on `wds2`: the second row duplicates the first row's
first terms and is dropped. -/
theorem C2_dedup_unique_witness :
    wds2.schema.has_first_terms = true ∧
    (((drop_duplicate_sequence_beginnings wds2).rows.map
        (fun r => r.sequence_first_terms)).Nodup ∧
    List.Sublist (drop_duplicate_sequence_beginnings wds2).rows wds2.rows ∧
    (∀ k : List Int,
      (drop_duplicate_sequence_beginnings wds2).rows.find?
          (fun r => r.sequence_first_terms == k) =
        wds2.rows.find? (fun r => r.sequence_first_terms == k)) ∧
    ∀ l1 r l2, wds2.rows = l1 ++ r :: l2 →
      r ∉ (drop_duplicate_sequence_beginnings wds2).rows →
      ∃ y ∈ l1, y ∈ (drop_duplicate_sequence_beginnings wds2).rows ∧
        y.sequence_first_terms = r.sequence_first_terms) :=
  ⟨rfl, C2_dedup_unique wds2 rfl⟩

/-- C6: whatever the input dataset, any final dataset the pipeline hands to
the writer contains neither a `sequence` nor a `keywords` column. -/
theorem C6_schema_final (max_el n_el : Nat) (ds out : Dataset)
    (h : pipelineCore max_el n_el ds = some out) :
    out.schema.has_sequence = false ∧ out.schema.has_keywords = false := by
  unfold pipelineCore at h
  cases hsplit : splitStage (filterStage n_el (truncateStage max_el (selectRequired ds))) with
  | none => rw [hsplit] at h; cases h
  | some split =>
    rw [hsplit] at h
    have hout : out = isEasyStage (dedupStage split) := (Option.some.inj h).symm
    subst hout
    obtain ⟨hkw, hsq⟩ := isEasyStage_schema (dedupStage split)
    refine ⟨?_, hkw⟩
    rw [hsq, dedupStage_schema]
    exact splitStage_some_has_sequence hsplit

/-- Witness for C6 on `wds6`. -/
theorem C6_schema_final_witness :
    pipelineCore 5 1 wds6 = some wds6out ∧
    wds6out.schema.has_sequence = false ∧ wds6out.schema.has_keywords = false :=
  ⟨by decide, C6_schema_final 5 1 wds6 wds6out (by decide)⟩

/-- C7: missing columns degrade gracefully: without `sequence` the truncate,
filter and split stages leave the dataset unchanged and the pipeline still
runs to completion; without `sequence_first_terms` the deduplicator returns
its input unchanged; without `keywords` flag derivation is skipped, leaving
the schema unchanged with no `is_easy` column added. -/
theorem C7_missing_columns (max_el n_el : Nat) (ds : Dataset) :
    (ds.schema.has_sequence = false →
      truncateStage max_el ds = ds ∧ filterStage n_el ds = ds ∧
      splitStage ds = some ds ∧ (pipelineCore max_el n_el ds).isSome = true) ∧
    (ds.schema.has_first_terms = false → drop_duplicate_sequence_beginnings ds = ds) ∧
    (ds.schema.has_keywords = false →
      add_is_easy_column ds = ds ∧ isEasyStage ds = ds) := by
  refine ⟨fun hseq => ⟨?_, ?_, ?_, ?_⟩, fun hft => ?_, fun hkw => ⟨?_, ?_⟩⟩
  · simp [truncateStage, hseq]
  · simp [filterStage, hseq]
  · simp [splitStage, hseq]
  · have h2 : (selectRequired ds).schema.has_sequence = false := by
      simp [selectRequired, hseq]
    have h3 : truncateStage max_el (selectRequired ds) = selectRequired ds := by
      simp [truncateStage, h2]
    have h4 : filterStage n_el (selectRequired ds) = selectRequired ds := by
      simp [filterStage, h2]
    have h5 : splitStage (selectRequired ds) = some (selectRequired ds) := by
      simp [splitStage, h2]
    unfold pipelineCore
    rw [h3, h4, h5]
    rfl
  · simp [drop_duplicate_sequence_beginnings, hft]
  · simp [add_is_easy_column, hkw]
  · simp [isEasyStage, hkw]

/-- Witness for C7 on `wds7`, whose schema has no columns at all. -/
theorem C7_missing_columns_witness :
    (truncateStage 4 wds7 = wds7 ∧ filterStage 2 wds7 = wds7 ∧
      splitStage wds7 = some wds7 ∧ (pipelineCore 4 2 wds7).isSome = true) ∧
    drop_duplicate_sequence_beginnings wds7 = wds7 ∧
    (add_is_easy_column wds7 = wds7 ∧ isEasyStage wds7 = wds7) :=
  ⟨(C7_missing_columns 4 2 wds7).1 rfl, (C7_missing_columns 4 2 wds7).2.1 rfl,
    (C7_missing_columns 4 2 wds7).2.2 rfl⟩

/-- C8: the spec's worked example with `max_seq_len = 8, min_seq_len = 8`:
the final row set is exactly one row with first terms `[1..7]`, next term 8
and `is_easy` 1; the third row is removed by the length filter (only the two
truncated eight-element sequences survive it) and the second row is removed
by the deduplicator (after truncation its first terms equal the first
row's). -/
theorem C8_worked_example :
    pipelineCore 8 8 exampleInput = some exampleOutput ∧
    (filterStage 8 (truncateStage 8 (selectRequired exampleInput))).rows.map
        (fun r => r.sequence) =
      [[1, 2, 3, 4, 5, 6, 7, 8], [1, 2, 3, 4, 5, 6, 7, 8]] ∧
    (splitStage (filterStage 8 (truncateStage 8 (selectRequired exampleInput)))).map
        (fun s => s.rows.map (fun r => r.sequence_first_terms)) =
      some [[1, 2, 3, 4, 5, 6, 7], [1, 2, 3, 4, 5, 6, 7]] := by
  refine ⟨?_, ?_, ?_⟩ <;> rfl

/-- C9: every load failure, unrecognized loaded-dataset shape and
serialization failure is caught inside `process_oeis_dataset`, which then
returns normally; a run failing at load attempts no write and produces no
output file. -/
theorem C9_error_handling (max_el n_el : Nat) (saveOk : Bool)
    (splits : List (String × Dataset)) (ds out : Dataset) :
    process_oeis_dataset max_el n_el LoadResult.failure saveOk =
        RunOutcome.abortedNoWrite ∧
    process_oeis_dataset max_el n_el LoadResult.other saveOk =
        RunOutcome.abortedNoWrite ∧
    (lookupTrain splits = none →
      process_oeis_dataset max_el n_el (LoadResult.dict splits) saveOk =
        RunOutcome.abortedNoWrite) ∧
    returnsNormally RunOutcome.abortedNoWrite = true ∧
    producedOutput RunOutcome.abortedNoWrite = false ∧
    (pipelineCore max_el n_el ds = some out →
      process_oeis_dataset max_el n_el (LoadResult.single ds) false =
        RunOutcome.saveFailed out) ∧
    returnsNormally (RunOutcome.saveFailed out) = true ∧
    producedOutput (RunOutcome.saveFailed out) = false := by
  refine ⟨rfl, rfl, fun hnone => ?_, rfl, rfl, fun hpipe => ?_, rfl, rfl⟩
  · simp only [process_oeis_dataset, hnone]
  · simp only [process_oeis_dataset, hpipe]
    rfl

/-- Witness for C9 at a concrete dict with no train split and a concrete
single dataset whose save fails. -/
theorem C9_error_handling_witness :
    process_oeis_dataset 3 1 LoadResult.failure true = RunOutcome.abortedNoWrite ∧
    process_oeis_dataset 3 1 LoadResult.other true = RunOutcome.abortedNoWrite ∧
    process_oeis_dataset 3 1 (LoadResult.dict [("validation", wds9)]) true =
      RunOutcome.abortedNoWrite ∧
    returnsNormally RunOutcome.abortedNoWrite = true ∧
    producedOutput RunOutcome.abortedNoWrite = false ∧
    process_oeis_dataset 3 1 (LoadResult.single wds9) false =
      RunOutcome.saveFailed wds9out ∧
    returnsNormally (RunOutcome.saveFailed wds9out) = true ∧
    producedOutput (RunOutcome.saveFailed wds9out) = false := by
  obtain ⟨h1, h2, h3, h4, h5, h6, h7, h8⟩ :=
    C9_error_handling 3 1 true [("validation", wds9)] wds9 wds9out
  exact ⟨h1, h2, h3 (by decide), h4, h5, h6 (by decide), h7, h8⟩

/-- C10: for every input dataset with the `sequence` column and every
configuration with `1 ≤ min_seq_len`, the pipeline completes and every final
row satisfies `min_seq_len - 1 ≤ len(sequence_first_terms) ≤ max_seq_len - 1`:
truncation bounds the lengths above, the filter bounds them below, and the
split removes exactly one element. -/
theorem C10_output_length_bounds (max_el n_el : Nat) (ds : Dataset)
    (hseq : ds.schema.has_sequence = true) (hmin : 1 ≤ n_el) :
    ∃ out, pipelineCore max_el n_el ds = some out ∧
      ∀ r ∈ out.rows,
        n_el - 1 ≤ r.sequence_first_terms.length ∧
        r.sequence_first_terms.length ≤ max_el - 1 := by
  have hs2 : (selectRequired ds).schema.has_sequence = true := by
    simp [selectRequired, hseq]
  have ht := truncateStage_eq max_el hs2
  have hs3seq : (truncateStage max_el (selectRequired ds)).schema.has_sequence = true := by
    rw [ht]; exact hs2
  have h3len : ∀ r ∈ (truncateStage max_el (selectRequired ds)).rows,
      r.sequence.length ≤ max_el := by
    rw [ht]
    intro r hr
    obtain ⟨r0, _, rfl⟩ := List.mem_map.mp hr
    exact truncateOne_length_le max_el r0.sequence
  have hf := filterStage_eq n_el hs3seq
  have hs4seq : (filterStage n_el (truncateStage max_el (selectRequired ds))).schema.has_sequence
      = true := by
    rw [hf]; exact hs3seq
  have h4 : ∀ r ∈ (filterStage n_el (truncateStage max_el (selectRequired ds))).rows,
      n_el ≤ r.sequence.length ∧ r.sequence.length ≤ max_el := by
    rw [hf]
    intro r hr
    rw [List.mem_filter] at hr
    obtain ⟨hr3, hp⟩ := hr
    exact ⟨by simpa using hp, h3len r hr3⟩
  have hne : ∀ r ∈ (filterStage n_el (truncateStage max_el (selectRequired ds))).rows,
      r.sequence ≠ [] := by
    intro r hr
    have hlow := (h4 r hr).1
    exact List.ne_nil_of_length_pos (by omega)
  have hsplit := splitStage_eq hs4seq hne
  have hpipe : pipelineCore max_el n_el ds =
      some (isEasyStage (dedupStage
        { schema :=
            { (filterStage n_el (truncateStage max_el (selectRequired ds))).schema with
              has_sequence := false, has_first_terms := true, has_next_term := true },
          rows := (filterStage n_el (truncateStage max_el (selectRequired ds))).rows.map
            splitRowNF })) := by
    unfold pipelineCore
    rw [hsplit]
  refine ⟨_, hpipe, ?_⟩
  intro r hr
  obtain ⟨r6, hr6, hftr⟩ := isEasyStage_first_terms _ r hr
  have hr5 : r6 ∈ (filterStage n_el (truncateStage max_el (selectRequired ds))).rows.map
      splitRowNF := (dedupStage_rows_sublist _).subset hr6
  obtain ⟨r4, hr4, rfl⟩ := List.mem_map.mp hr5
  obtain ⟨hlo, hhi⟩ := h4 r4 hr4
  rw [hftr]
  simp only [splitRowNF, List.length_dropLast]
  omega

/-- Witness for C10 on `wds10` with `max_seq_len = 2, min_seq_len = 1`. -/
theorem C10_output_length_bounds_witness :
    wds10.schema.has_sequence = true ∧ 1 ≤ 1 ∧
    ∃ out, pipelineCore 2 1 wds10 = some out ∧
      ∀ r ∈ out.rows,
        1 - 1 ≤ r.sequence_first_terms.length ∧
        r.sequence_first_terms.length ≤ 2 - 1 :=
  ⟨rfl, le_refl 1, C10_output_length_bounds 2 1 wds10 rfl (le_refl 1)⟩
